import Mathlib

/-!
# Verification of `hash_checker`'s digest engine (`src/hashing.rs`)

The repository exposes a single operation, `hash_sha256`, which opens a file at
a given path, streams its bytes through a SHA-256 accumulator (the `sha2`
crate's `Sha256` behind `io::copy` and a `BufReader`), finalizes the digest,
and encodes the 32 digest bytes as a lowercase hexadecimal string
(`base16ct::lower::encode_string`).

This file gives a shallow embedding of that operation:

* SHA-256 itself (FIPS 180-4, as implemented by the `sha2` crate) is embedded
  as an executable block-buffered accumulator over byte lists, with 32-bit
  words represented as `Nat` reduced mod `2^32`.
* The file system is modelled as a map from path strings to either an open
  error or a `FileStream`: the sequence of chunk reads the buffered reader
  delivers, followed by either a clean end of stream or a mid-stream
  read error.  `io::copy` is embedded as `ioCopy`, which feeds each chunk to
  the accumulator and propagates the stream's terminal error, and
  `hash_sha256` composes open, copy, finalize and hex encoding exactly as the
  Rust function does.

All definitions are executable so that concrete test vectors (the empty file
and the five-byte file "hello") evaluate inside the kernel.
-/

namespace HashChecker

/-! ## 32-bit word arithmetic over `Nat` -/

/-- Addition of 32-bit words, wrapping mod `2^32`. -/
def add32 (a b : Nat) : Nat := (a + b) % 4294967296

/-- Right rotation of a 32-bit word by `n` bits. -/
def rotr32 (n x : Nat) : Nat := (x >>> n) ||| ((x <<< (32 - n)) % 4294967296)

/-- Bitwise complement of a 32-bit word. -/
def not32 (x : Nat) : Nat := x ^^^ 4294967295

/-- SHA-256 choice function `Ch(x,y,z)`. -/
def ch32 (x y z : Nat) : Nat := (x &&& y) ^^^ (not32 x &&& z)

/-- SHA-256 majority function `Maj(x,y,z)`. -/
def maj32 (x y z : Nat) : Nat := (x &&& y) ^^^ (x &&& z) ^^^ (y &&& z)

/-- SHA-256 big sigma-0: `ROTR2 ^ ROTR13 ^ ROTR22`. -/
def bigSigma0 (x : Nat) : Nat := rotr32 2 x ^^^ rotr32 13 x ^^^ rotr32 22 x

/-- SHA-256 big sigma-1: `ROTR6 ^ ROTR11 ^ ROTR25`. -/
def bigSigma1 (x : Nat) : Nat := rotr32 6 x ^^^ rotr32 11 x ^^^ rotr32 25 x

/-- SHA-256 small sigma-0: `ROTR7 ^ ROTR18 ^ SHR3`. -/
def smallSigma0 (x : Nat) : Nat := rotr32 7 x ^^^ rotr32 18 x ^^^ (x >>> 3)

/-- SHA-256 small sigma-1: `ROTR17 ^ ROTR19 ^ SHR10`. -/
def smallSigma1 (x : Nat) : Nat := rotr32 17 x ^^^ rotr32 19 x ^^^ (x >>> 10)

/-- The 64 SHA-256 round constants, written in decimal. -/
def K256 : List Nat :=
  [1116352408, 1899447441, 3049323471, 3921009573, 961987163, 1508970993,
   2453635748, 2870763221, 3624381080, 310598401, 607225278, 1426881987,
   1925078388, 2162078206, 2614888103, 3248222580, 3835390401, 4022224774,
   264347078, 604807628, 770255983, 1249150122, 1555081692, 1996064986,
   2554220882, 2821834349, 2952996808, 3210313671, 3336571891, 3584528711,
   113926993, 338241895, 666307205, 773529912, 1294757372, 1396182291,
   1695183700, 1986661051, 2177026350, 2456956037, 2730485921, 2820302411,
   3259730800, 3345764771, 3516065817, 3600352804, 4094571909, 275423344,
   430227734, 506948616, 659060556, 883997877, 958139571, 1322822218,
   1537002063, 1747873779, 1955562222, 2024104815, 2227730452, 2361852424,
   2428436474, 2756734187, 3204031479, 3329325298]

/-- The eight 32-bit working variables of the SHA-256 state. -/
structure Hash8 where
  a : Nat
  b : Nat
  c : Nat
  d : Nat
  e : Nat
  f : Nat
  g : Nat
  h : Nat
deriving DecidableEq

/-- The starting SHA-256 hash value `H(0)`, written in decimal. -/
def H0 : Hash8 :=
  ⟨1779033703, 3144134277, 1013904242, 2773480762,
   1359893119, 2600822924, 528734635, 1541459225⟩

/-- Group a byte list into big-endian 32-bit words, four bytes per word. -/
def bytesToWords : List Nat → List Nat
  | b0 :: b1 :: b2 :: b3 :: rest =>
      (b0 * 16777216 + b1 * 65536 + b2 * 256 + b3) :: bytesToWords rest
  | _ => []

/-- Extend the message schedule, keeping the words in reverse order
(most recent first), by the given number of extra words. -/
def extendWRev : List Nat → Nat → List Nat
  | w, 0 => w
  | w, n + 1 =>
      extendWRev
        ((smallSigma1 (w.getD 1 0) + w.getD 6 0 +
          smallSigma0 (w.getD 14 0) + w.getD 15 0) % 4294967296 :: w) n

/-- The full 64-word message schedule of one 64-byte block. -/
def schedule (block : List Nat) : List Nat :=
  (extendWRev (bytesToWords block).reverse 48).reverse

/-- One SHA-256 round: update the working variables with one schedule word
and its round constant. -/
def roundStep (s : Hash8) (wk : Nat × Nat) : Hash8 :=
  let t1 := (s.h + bigSigma1 s.e + ch32 s.e s.f s.g + wk.2 + wk.1) % 4294967296
  let t2 := (bigSigma0 s.a + maj32 s.a s.b s.c) % 4294967296
  ⟨(t1 + t2) % 4294967296, s.a, s.b, s.c, (s.d + t1) % 4294967296, s.e, s.f, s.g⟩

/-- The SHA-256 compression function: absorb one 64-byte block into the
hash state. -/
def compress (s : Hash8) (block : List Nat) : Hash8 :=
  let r := ((schedule block).zip K256).foldl roundStep s
  ⟨add32 s.a r.a, add32 s.b r.b, add32 s.c r.c, add32 s.d r.d,
   add32 s.e r.e, add32 s.f r.f, add32 s.g r.g, add32 s.h r.h⟩

/-- Absorb every complete leading 64-byte block of `l` into the state,
returning the new state and the remaining (fewer than 64) bytes.  The fuel is
an upper bound on the number of bytes still to process. -/
def processBlocksAux : Nat → Hash8 → List Nat → Hash8 × List Nat
  | 0, s, l => (s, l)
  | fuel + 1, s, l =>
      if 64 ≤ l.length then
        processBlocksAux fuel (compress s (l.take 64)) (l.drop 64)
      else (s, l)

/-- Absorb every complete leading 64-byte block of `l` into the state. -/
def processBlocks (s : Hash8) (l : List Nat) : Hash8 × List Nat :=
  processBlocksAux l.length s l

/-- The SHA-256 streaming accumulator, as kept by the `sha2` crate: the hash
state over the blocks absorbed so far, the pending bytes that do not yet fill
a block, and the total number of message bytes seen. -/
structure Sha256Ctx where
  hash : Hash8
  buf : List Nat
  len : Nat

/-- `Sha256::new()`: the empty accumulator. -/
def Sha256Ctx.new : Sha256Ctx := ⟨H0, [], 0⟩

/-- `Digest::update`: append bytes to the stream, absorbing every block that
becomes complete and buffering the remainder. -/
def Sha256Ctx.update (c : Sha256Ctx) (data : List Nat) : Sha256Ctx :=
  ⟨(processBlocks c.hash (c.buf ++ data)).1,
   (processBlocks c.hash (c.buf ++ data)).2,
   c.len + data.length⟩

/-- The SHA-256 padding for a message of `len` bytes: the byte `0x80`, then
zeros up to 56 mod 64, then the bit length as eight big-endian bytes. -/
def padBytes (len : Nat) : List Nat :=
  128 :: List.replicate ((119 - len % 64) % 64) 0 ++
    [(len * 8) >>> 56 % 256, (len * 8) >>> 48 % 256, (len * 8) >>> 40 % 256,
     (len * 8) >>> 32 % 256, (len * 8) >>> 24 % 256, (len * 8) >>> 16 % 256,
     (len * 8) >>> 8 % 256, (len * 8) % 256]

/-- Serialize one 32-bit word as four big-endian bytes. -/
def wordBytes (w : Nat) : List Nat :=
  [(w >>> 24) % 256, (w >>> 16) % 256, (w >>> 8) % 256, w % 256]

/-- Serialize the eight-word hash state as the 32 big-endian digest bytes. -/
def hash8ToBytes (s : Hash8) : List Nat :=
  wordBytes s.a ++ wordBytes s.b ++ wordBytes s.c ++ wordBytes s.d ++
  wordBytes s.e ++ wordBytes s.f ++ wordBytes s.g ++ wordBytes s.h

/-- `Digest::finalize`: pad the buffered tail with the total length, absorb
the final block(s), and emit the 32-byte digest. -/
def Sha256Ctx.finalize (c : Sha256Ctx) : List Nat :=
  hash8ToBytes (processBlocks c.hash (c.buf ++ padBytes c.len)).1

/-- One-shot SHA-256 of a byte list: feed the whole message to a fresh
accumulator and finalize. -/
def sha256 (msg : List Nat) : List Nat :=
  (Sha256Ctx.new.update msg).finalize

/-! ## Lowercase hexadecimal encoding (`base16ct::lower::encode_string`) -/

/-- One hex digit, lowercase: `0-9` then `a-f`, as in `base16ct`. -/
def hexDigit (n : Nat) : Char :=
  Char.ofNat (if n < 10 then 48 + n else 87 + n)

/-- The two hex characters of each byte, most-significant nibble first. -/
def hexPairList : List Nat → List Char
  | [] => []
  | b :: rest => hexDigit ((b >>> 4) &&& 15) :: hexDigit (b &&& 15) :: hexPairList rest

/-- `base16ct::lower::encode_string`: the lowercase hex string of a byte list. -/
def base16LowerEncode (bytes : List Nat) : String :=
  String.mk (hexPairList bytes)

/-! ## The file-system model and `hash_sha256` -/

/-- Model of `std::io::Error`: the error kinds the digest engine can meet,
with a free-form message for the rest.  This is the value boxed into the
`Box<dyn std::error::Error>` that `hash_sha256` returns. -/
inductive IOError where
  | notFound
  | permissionDenied
  | isADirectory
  | other (msg : String)
deriving DecidableEq

/-- What the buffered reader delivers for one open file: the successive chunk
reads (each a byte list), and then either a clean end of stream (`none`) or a
mid-stream read error (`some e`). -/
structure FileStream where
  chunks : List (List Nat)
  final : Option IOError

/-- The file-system abstraction: `File::open` on a path either yields a
readable stream or fails with an I/O error. -/
structure FS where
  openFile : String → Except IOError FileStream

/-- `io::copy(&mut reader, &mut hasher)`: feed each chunk the reader delivers
into the accumulator, counting bytes; a mid-stream read error is returned as
soon as the stream produces it, otherwise the accumulator and the byte count
are returned. -/
def ioCopy : List (List Nat) → Option IOError → Sha256Ctx → Nat →
    Except IOError (Sha256Ctx × Nat)
  | [], none, c, n => .ok (c, n)
  | [], some e, _, _ => .error e
  | chunk :: rest, fin, c, n => ioCopy rest fin (c.update chunk) (n + chunk.length)

/-- `hash_sha256` from `src/hashing.rs`: open the file, stream it through a
fresh SHA-256 accumulator via `io::copy`, finalize, and hex-encode the digest.
Both the open error and any read error propagate via `?`. -/
def hash_sha256 (fs : FS) (path : String) : Except IOError String :=
  match fs.openFile path with
  | .error e => .error e
  | .ok stream =>
      match ioCopy stream.chunks stream.final Sha256Ctx.new 0 with
      | .error e => .error e
      | .ok res => .ok (base16LowerEncode res.1.finalize)

/-! ## Concrete file systems used as test fixtures -/

/-- A file system with one empty file. -/
def fsEmpty : FS :=
  ⟨fun p => if p = "empty.txt" then .ok ⟨[], none⟩ else .error .notFound⟩

/-- A file system with one file holding the five ASCII bytes of "hello",
delivered in a single read. -/
def fsHello : FS :=
  ⟨fun p => if p = "hello.txt" then .ok ⟨[[104, 101, 108, 108, 111]], none⟩
            else .error .notFound⟩

/-- A file system with one file holding the five ASCII bytes of "hello",
delivered by a reader whose buffer holds at most two bytes. -/
def fsHelloChunked : FS :=
  ⟨fun p => if p = "hello.txt" then .ok ⟨[[104, 101], [108, 108], [111]], none⟩
            else .error .notFound⟩

/-- A file system on which every open fails. -/
def fsNotFound : FS := ⟨fun _ => .error .notFound⟩

/-- A file system on which every open fails with a generic I/O error. -/
def fsOpenFail : FS := ⟨fun _ => .error (.other "io failure")⟩

/-- A file system whose one stream yields a chunk and then fails mid-read
with the same generic I/O error as `fsOpenFail`. -/
def fsReadFail : FS := ⟨fun _ => .ok ⟨[[1, 2, 3]], some (.other "io failure")⟩⟩

/-! ## Block-processing lemmas -/

/-- The fuel of `processBlocksAux` is irrelevant once it bounds the input
length. -/
theorem processBlocksAux_fuel : ∀ (f g : Nat) (s : Hash8) (l : List Nat),
    l.length ≤ f → l.length ≤ g →
    processBlocksAux f s l = processBlocksAux g s l := by
  intro f
  induction f with
  | zero =>
    intro g s l hf _
    have hl : l = [] := List.eq_nil_of_length_eq_zero (Nat.le_zero.mp hf)
    subst hl
    cases g <;> simp [processBlocksAux]
  | succ f ih =>
    intro g s l hf hg
    cases g with
    | zero =>
      have hl : l = [] := List.eq_nil_of_length_eq_zero (Nat.le_zero.mp hg)
      subst hl
      simp [processBlocksAux]
    | succ g =>
      simp only [processBlocksAux]
      by_cases h64 : 64 ≤ l.length
      · rw [if_pos h64, if_pos h64]
        exact ih g _ _ (by simp [List.length_drop]; omega)
          (by simp [List.length_drop]; omega)
      · rw [if_neg h64, if_neg h64]

/-- A list shorter than one block is left untouched. -/
theorem processBlocks_lt (s : Hash8) (l : List Nat) (hl : l.length < 64) :
    processBlocks s l = (s, l) := by
  unfold processBlocks
  cases hll : l.length with
  | zero => simp [processBlocksAux]
  | succ n =>
    simp only [processBlocksAux]
    rw [if_neg (by omega)]

/-- A list of at least one block starts by compressing its first block. -/
theorem processBlocks_ge (s : Hash8) (l : List Nat) (hl : 64 ≤ l.length) :
    processBlocks s l = processBlocks (compress s (l.take 64)) (l.drop 64) := by
  unfold processBlocks
  obtain ⟨n, hn⟩ : ∃ n, l.length = n + 1 := ⟨l.length - 1, by omega⟩
  rw [hn]
  simp only [processBlocksAux]
  rw [if_pos hl]
  exact processBlocksAux_fuel n (l.drop 64).length _ _
    (by simp [List.length_drop]; omega) (le_refl _)

/-- The remainder left by `processBlocksAux` is shorter than one block. -/
theorem processBlocksAux_rem_lt : ∀ (f : Nat) (s : Hash8) (l : List Nat),
    l.length ≤ f → (processBlocksAux f s l).2.length < 64 := by
  intro f
  induction f with
  | zero =>
    intro s l hf
    have hl : l = [] := List.eq_nil_of_length_eq_zero (Nat.le_zero.mp hf)
    subst hl
    simp [processBlocksAux]
  | succ f ih =>
    intro s l hf
    simp only [processBlocksAux]
    by_cases h64 : 64 ≤ l.length
    · rw [if_pos h64]
      exact ih _ _ (by simp [List.length_drop]; omega)
    · rw [if_neg h64]
      simpa using (by omega : l.length < 64)

/-- The remainder left by `processBlocks` is shorter than one block. -/
theorem processBlocks_rem_lt (s : Hash8) (l : List Nat) :
    (processBlocks s l).2.length < 64 :=
  processBlocksAux_rem_lt l.length s l (le_refl _)

/-- Fueled form of the key streaming fact: absorbing `a ++ b` is absorbing
`a`, then absorbing its remainder followed by `b`. -/
theorem processBlocks_append_fuel : ∀ (f : Nat) (s : Hash8) (a b : List Nat),
    a.length ≤ f →
    processBlocks s (a ++ b) =
      processBlocks (processBlocks s a).1 ((processBlocks s a).2 ++ b) := by
  intro f
  induction f with
  | zero =>
    intro s a b hf
    have ha : a = [] := List.eq_nil_of_length_eq_zero (Nat.le_zero.mp hf)
    subst ha
    rw [processBlocks_lt s [] (by simp)]
  | succ f ih =>
    intro s a b hf
    by_cases h64 : 64 ≤ a.length
    · have h64ab : 64 ≤ (a ++ b).length := by
        simp [List.length_append]; omega
      rw [processBlocks_ge s (a ++ b) h64ab, processBlocks_ge s a h64,
          List.take_append_of_le_length h64, List.drop_append_of_le_length h64]
      exact ih _ _ _ (by simp [List.length_drop]; omega)
    · rw [processBlocks_lt s a (by omega)]

/-- Absorbing `a ++ b` is absorbing `a`, then absorbing its remainder
followed by `b`. -/
theorem processBlocks_append (s : Hash8) (a b : List Nat) :
    processBlocks s (a ++ b) =
      processBlocks (processBlocks s a).1 ((processBlocks s a).2 ++ b) :=
  processBlocks_append_fuel a.length s a b (le_refl _)

/-! ## Accumulator lemmas -/

/-- Two consecutive updates are one update with the concatenated data. -/
theorem Sha256Ctx.update_append (c : Sha256Ctx) (a b : List Nat) :
    (c.update a).update b = c.update (a ++ b) := by
  simp only [Sha256Ctx.update]
  rw [← List.append_assoc, processBlocks_append c.hash (c.buf ++ a) b]
  simp [List.length_append, Nat.add_assoc]

/-- An update leaves fewer than 64 buffered bytes. -/
theorem Sha256Ctx.update_buf_lt (c : Sha256Ctx) (d : List Nat) :
    (c.update d).buf.length < 64 :=
  processBlocks_rem_lt _ _

/-- Updating with no bytes leaves a well-buffered accumulator unchanged. -/
theorem Sha256Ctx.update_nil (c : Sha256Ctx) (hc : c.buf.length < 64) :
    c.update [] = c := by
  simp only [Sha256Ctx.update, List.append_nil, List.length_nil, Nat.add_zero]
  rw [processBlocks_lt c.hash c.buf hc]

/-- Folding the accumulator over a chunk list is one update with the
flattened byte sequence: chunking never changes the absorbed stream. -/
theorem foldl_update : ∀ (cs : List (List Nat)) (c : Sha256Ctx),
    c.buf.length < 64 →
    List.foldl Sha256Ctx.update c cs = c.update cs.flatten := by
  intro cs
  induction cs with
  | nil =>
    intro c hc
    simp only [List.foldl_nil, List.flatten_nil]
    exact (Sha256Ctx.update_nil c hc).symm
  | cons d cs ih =>
    intro c hc
    simp only [List.foldl_cons, List.flatten_cons]
    rw [ih (c.update d) (Sha256Ctx.update_buf_lt c d), Sha256Ctx.update_append]

/-! ## `ioCopy` and `hash_sha256` unfolding lemmas -/

/-- On a clean stream, `ioCopy` feeds every chunk to the accumulator and
returns it with some byte count. -/
theorem ioCopy_none : ∀ (cs : List (List Nat)) (c : Sha256Ctx) (n : Nat),
    ∃ m, ioCopy cs none c n = .ok (List.foldl Sha256Ctx.update c cs, m) := by
  intro cs
  induction cs with
  | nil => intro c n; exact ⟨n, rfl⟩
  | cons d cs ih => intro c n; exact ih (c.update d) (n + d.length)

/-- On a stream that ends in a read error, `ioCopy` returns that error. -/
theorem ioCopy_some : ∀ (cs : List (List Nat)) (e : IOError) (c : Sha256Ctx)
    (n : Nat), ioCopy cs (some e) c n = .error e := by
  intro cs
  induction cs with
  | nil => intro e c n; rfl
  | cons d cs ih => intro e c n; exact ih e (c.update d) (n + d.length)

/-- When the open fails, `hash_sha256` returns exactly that error. -/
theorem hash_sha256_open_error (fs : FS) (path : String) (e : IOError)
    (h : fs.openFile path = .error e) : hash_sha256 fs path = .error e := by
  unfold hash_sha256
  rw [h]

/-- When the open succeeds, `hash_sha256` is `ioCopy` on the stream followed
by finalizing and hex-encoding. -/
theorem hash_sha256_ok_stream (fs : FS) (path : String) (st : FileStream)
    (h : fs.openFile path = .ok st) :
    hash_sha256 fs path =
      match ioCopy st.chunks st.final Sha256Ctx.new 0 with
      | .error e => .error e
      | .ok res => .ok (base16LowerEncode res.1.finalize) := by
  unfold hash_sha256
  rw [h]

/-- On a readable, error-free stream, `hash_sha256` returns the lowercase
hex encoding of the one-shot SHA-256 of the file's full byte contents. -/
theorem hash_sha256_ok_eq (fs : FS) (path : String) (st : FileStream)
    (hopen : fs.openFile path = .ok st) (hfin : st.final = none) :
    hash_sha256 fs path = .ok (base16LowerEncode (sha256 st.chunks.flatten)) := by
  obtain ⟨m, hm⟩ := ioCopy_none st.chunks Sha256Ctx.new 0
  rw [hash_sha256_ok_stream fs path st hopen, hfin, hm,
      foldl_update st.chunks Sha256Ctx.new (by simp [Sha256Ctx.new])]
  rfl

/-- Every success of `hash_sha256` is the hex encoding of some finalized
accumulator. -/
theorem hash_sha256_ok_shape (fs : FS) (path : String) (s : String)
    (h : hash_sha256 fs path = .ok s) :
    ∃ c : Sha256Ctx, s = base16LowerEncode (Sha256Ctx.finalize c) := by
  cases hopen : fs.openFile path with
  | error e =>
    rw [hash_sha256_open_error fs path e hopen] at h
    exact Except.noConfusion h
  | ok st =>
    rw [hash_sha256_ok_stream fs path st hopen] at h
    cases hfin : st.final with
    | some e =>
      rw [hfin, ioCopy_some] at h
      exact Except.noConfusion h
    | none =>
      obtain ⟨m, hm⟩ := ioCopy_none st.chunks Sha256Ctx.new 0
      rw [hfin, hm] at h
      have h2 : (Except.ok (base16LowerEncode
          (List.foldl Sha256Ctx.update Sha256Ctx.new st.chunks).finalize) :
          Except IOError String) = Except.ok s := h
      injection h2 with h3
      exact ⟨_, h3.symm⟩

/-! ## Digest length and hex-encoding lemmas -/

/-- Every finalized digest has exactly 32 bytes. -/
theorem finalize_length (c : Sha256Ctx) : c.finalize.length = 32 := rfl

/-- The one-shot SHA-256 digest has exactly 32 bytes. -/
theorem sha256_length (msg : List Nat) : (sha256 msg).length = 32 := rfl

/-- The hex encoding emits exactly two characters per byte. -/
theorem hexPairList_length : ∀ (bytes : List Nat),
    (hexPairList bytes).length = 2 * bytes.length := by
  intro bytes
  induction bytes with
  | nil => rfl
  | cons b rest ih =>
    simp only [hexPairList, List.length_cons, ih]
    omega

/-- The hex string of a byte list has twice as many characters as bytes. -/
theorem base16LowerEncode_length (bytes : List Nat) :
    (base16LowerEncode bytes).length = 2 * bytes.length := by
  have h : (base16LowerEncode bytes).length = (hexPairList bytes).length := rfl
  rw [h]
  exact hexPairList_length bytes

/-- Every nibble below 16 encodes to a character in `0-9a-f`. -/
theorem hexDigit_mem : ∀ n, n < 16 → hexDigit n ∈ "0123456789abcdef".data := by
  decide

/-- Every character the hex encoder emits is in `0-9a-f`. -/
theorem hexPairList_mem : ∀ (bytes : List Nat) (ch : Char),
    ch ∈ hexPairList bytes → ch ∈ "0123456789abcdef".data := by
  intro bytes
  induction bytes with
  | nil => intro ch h; cases h
  | cons b rest ih =>
    intro ch h
    simp only [hexPairList, List.mem_cons] at h
    rcases h with h | h | h
    · subst h
      refine hexDigit_mem _ ?_
      have hle : (b >>> 4) &&& 15 ≤ 15 := Nat.and_le_right
      omega
    · subst h
      refine hexDigit_mem _ ?_
      have hle : b &&& 15 ≤ 15 := Nat.and_le_right
      omega
    · exact ih ch h

/-! ## Claim theorems -/

/-- Claim C1: for every path naming a readable file, `hash_sha256` returns
`Ok` of the lowercase hexadecimal encoding of the 32-byte digest obtained by
streaming the file's entire byte contents through the SHA-256 accumulator and
finalizing it; each digest byte becomes exactly two hex characters
(most-significant nibble first, by `hexPairList`), so the result has exactly
64 characters. -/
theorem hash_sha256_readable_ok (fs : FS) (path : String) (st : FileStream)
    (hopen : fs.openFile path = .ok st) (hfin : st.final = none) :
    hash_sha256 fs path = .ok (base16LowerEncode (sha256 st.chunks.flatten)) ∧
    (sha256 st.chunks.flatten).length = 32 ∧
    (base16LowerEncode (sha256 st.chunks.flatten)).length = 64 := by
  refine ⟨hash_sha256_ok_eq fs path st hopen hfin, sha256_length _, ?_⟩
  rw [base16LowerEncode_length, sha256_length]

/-- Witness for C1: the "hello" file evaluates as the claim says. -/
theorem hash_sha256_readable_ok_witness :
    hash_sha256 fsHello "hello.txt" =
      .ok (base16LowerEncode
        (sha256 ([[104, 101, 108, 108, 111]] : List (List Nat)).flatten)) ∧
    (sha256 ([[104, 101, 108, 108, 111]] : List (List Nat)).flatten).length = 32 ∧
    (base16LowerEncode
      (sha256 ([[104, 101, 108, 108, 111]] : List (List Nat)).flatten)).length = 64 :=
  hash_sha256_readable_ok fsHello "hello.txt"
    ⟨[[104, 101, 108, 108, 111]], none⟩ rfl rfl

/-- Claim C2: hashing a zero-length file succeeds and returns exactly the
well-known SHA-256 digest of zero bytes, in lowercase hex. -/
theorem hash_sha256_empty (fs : FS) (path : String) (st : FileStream)
    (hopen : fs.openFile path = .ok st) (hfin : st.final = none)
    (hbytes : st.chunks.flatten = []) :
    hash_sha256 fs path =
      .ok "e3b0c44298fc1c149afbf4c8996fb92427ae41e4649b934ca495991b7852b855" := by
  rw [hash_sha256_ok_eq fs path st hopen hfin, hbytes]
  rfl

/-- Witness for C2: the empty file of `fsEmpty` evaluates to the empty
digest. -/
theorem hash_sha256_empty_witness :
    hash_sha256 fsEmpty "empty.txt" =
      .ok "e3b0c44298fc1c149afbf4c8996fb92427ae41e4649b934ca495991b7852b855" :=
  hash_sha256_empty fsEmpty "empty.txt" ⟨[], none⟩ rfl rfl rfl

/-- Claim C3: hashing a file whose entire content is the five ASCII bytes of
"hello" succeeds and returns exactly the hex digest
`2cf24dba5fb0a30e26e83b2ac5b9e29e1b161e5c1fa7425e73043362938b9824`. -/
theorem hash_sha256_hello (fs : FS) (path : String) (st : FileStream)
    (hopen : fs.openFile path = .ok st) (hfin : st.final = none)
    (hbytes : st.chunks.flatten = [104, 101, 108, 108, 111]) :
    hash_sha256 fs path =
      .ok "2cf24dba5fb0a30e26e83b2ac5b9e29e1b161e5c1fa7425e73043362938b9824" := by
  rw [hash_sha256_ok_eq fs path st hopen hfin, hbytes]
  rfl

/-- Witness for C3: the "hello" file of `fsHello` evaluates to the claimed
digest. -/
theorem hash_sha256_hello_witness :
    hash_sha256 fsHello "hello.txt" =
      .ok "2cf24dba5fb0a30e26e83b2ac5b9e29e1b161e5c1fa7425e73043362938b9824" :=
  hash_sha256_hello fsHello "hello.txt" ⟨[[104, 101, 108, 108, 111]], none⟩
    rfl rfl rfl

/-- Claim C4: every success of `hash_sha256` is a string of exactly 64
characters, each in `0-9a-f` (hence no whitespace and no line terminator). -/
theorem hash_sha256_ok_length_charset (fs : FS) (path : String) (s : String)
    (h : hash_sha256 fs path = .ok s) :
    s.length = 64 ∧ ∀ ch ∈ s.data, ch ∈ "0123456789abcdef".data := by
  obtain ⟨c, hc⟩ := hash_sha256_ok_shape fs path s h
  subst hc
  constructor
  · rw [base16LowerEncode_length, finalize_length]
  · intro ch hch
    exact hexPairList_mem _ ch hch

/-- Witness for C4: the "hello" digest string has length 64 and hex-only
characters. -/
theorem hash_sha256_ok_length_charset_witness :
    ("2cf24dba5fb0a30e26e83b2ac5b9e29e1b161e5c1fa7425e73043362938b9824").length = 64 ∧
    ∀ ch ∈ ("2cf24dba5fb0a30e26e83b2ac5b9e29e1b161e5c1fa7425e73043362938b9824").data,
      ch ∈ "0123456789abcdef".data :=
  hash_sha256_ok_length_charset fsHello "hello.txt"
    "2cf24dba5fb0a30e26e83b2ac5b9e29e1b161e5c1fa7425e73043362938b9824" (by rfl)

/-- Claim C5: hashing is deterministic in the file contents — two successful
runs over files with identical byte contents (regardless of path or of how
the reader chunks the bytes) return identical hex strings. -/
theorem hash_sha256_deterministic (fs₁ : FS) (p₁ : String) (st₁ : FileStream)
    (fs₂ : FS) (p₂ : String) (st₂ : FileStream)
    (h₁ : fs₁.openFile p₁ = .ok st₁) (hf₁ : st₁.final = none)
    (h₂ : fs₂.openFile p₂ = .ok st₂) (hf₂ : st₂.final = none)
    (hsame : st₁.chunks.flatten = st₂.chunks.flatten) :
    hash_sha256 fs₁ p₁ = hash_sha256 fs₂ p₂ := by
  rw [hash_sha256_ok_eq fs₁ p₁ st₁ h₁ hf₁, hash_sha256_ok_eq fs₂ p₂ st₂ h₂ hf₂,
      hsame]

/-- Witness for C5: the "hello" bytes delivered in one read and in two-byte
reads hash to the same string. -/
theorem hash_sha256_deterministic_witness :
    hash_sha256 fsHello "hello.txt" = hash_sha256 fsHelloChunked "hello.txt" :=
  hash_sha256_deterministic fsHello "hello.txt"
    ⟨[[104, 101, 108, 108, 111]], none⟩ fsHelloChunked "hello.txt"
    ⟨[[104, 101], [108, 108], [111]], none⟩ rfl rfl rfl rfl rfl

/-- Claim C6: reading in bounded-size chunks does not change the result —
even when the file is larger than any single chunk the reader delivers, the
digest equals the one obtained by feeding the full byte sequence to a fresh
accumulator in one shot. -/
theorem hash_sha256_streaming_equiv (fs : FS) (path : String)
    (st : FileStream) (B : Nat)
    (hopen : fs.openFile path = .ok st) (hfin : st.final = none)
    (hB : ∀ c ∈ st.chunks, c.length ≤ B) (hlarge : B < st.chunks.flatten.length) :
    hash_sha256 fs path =
      .ok (base16LowerEncode (Sha256Ctx.new.update st.chunks.flatten).finalize) :=
  hash_sha256_ok_eq fs path st hopen hfin

/-- Witness for C6: the "hello" file read through a two-byte buffer equals
the one-shot digest of its five bytes. -/
theorem hash_sha256_streaming_equiv_witness :
    hash_sha256 fsHelloChunked "hello.txt" =
      .ok (base16LowerEncode
        (Sha256Ctx.new.update
          ([[104, 101], [108, 108], [111]] : List (List Nat)).flatten).finalize) :=
  hash_sha256_streaming_equiv fsHelloChunked "hello.txt"
    ⟨[[104, 101], [108, 108], [111]], none⟩ 2 rfl rfl (by decide) (by decide)

/-- Claim C7: for every path that does not name an openable, readable file —
the open fails, or the stream fails before a clean end — `hash_sha256`
returns a failure, never a digest string. -/
theorem hash_sha256_unreadable_err (fs : FS) (path : String)
    (h : (∃ e, fs.openFile path = .error e) ∨
         ∃ st e, fs.openFile path = .ok st ∧ st.final = some e) :
    ∀ s, hash_sha256 fs path ≠ .ok s := by
  intro s hs
  rcases h with ⟨e, he⟩ | ⟨st, e, hst, hfin⟩
  · rw [hash_sha256_open_error fs path e he] at hs
    exact Except.noConfusion hs
  · rw [hash_sha256_ok_stream fs path st hst, hfin, ioCopy_some] at hs
    exact Except.noConfusion hs

/-- Witness for C7: a missing path yields no digest string. -/
theorem hash_sha256_unreadable_err_witness :
    hash_sha256 fsNotFound "missing.txt" ≠ .ok "" :=
  hash_sha256_unreadable_err fsNotFound "missing.txt"
    (Or.inl ⟨.notFound, rfl⟩) ""

/-- Claim C8: any I/O error met while opening or while reading mid-stream is
propagated to the caller unchanged — the call returns exactly that error,
with no recovery and never a partial or default digest. -/
theorem hash_sha256_error_propagation (fs : FS) (path : String) :
    (∀ e, fs.openFile path = .error e → hash_sha256 fs path = .error e) ∧
    (∀ st e, fs.openFile path = .ok st → st.final = some e →
      hash_sha256 fs path = .error e) := by
  constructor
  · intro e he
    exact hash_sha256_open_error fs path e he
  · intro st e hst hfin
    rw [hash_sha256_ok_stream fs path st hst, hfin, ioCopy_some]

/-- Witness for C8: a failed open and a mid-stream read failure each
propagate their exact error. -/
theorem hash_sha256_error_propagation_witness :
    hash_sha256 fsNotFound "a.txt" = .error .notFound ∧
    hash_sha256 fsReadFail "f.txt" = .error (.other "io failure") :=
  ⟨(hash_sha256_error_propagation fsNotFound "a.txt").1 .notFound rfl,
   (hash_sha256_error_propagation fsReadFail "f.txt").2
     ⟨[[1, 2, 3]], some (.other "io failure")⟩ (.other "io failure") rfl rfl⟩

/-- Counterexample for C9: an open failure and a mid-stream read failure
carrying the same underlying I/O error produce identical error values, so a
caller cannot tell those two failure causes apart from the returned error
alone — the boxed error erases where the failure happened. -/
theorem hash_sha256_err_indistinguishable :
    hash_sha256 fsOpenFail "f.txt" = hash_sha256 fsReadFail "f.txt" ∧
    (∃ e, fsOpenFail.openFile "f.txt" = .error e) ∧
    (∃ st, fsReadFail.openFile "f.txt" = .ok st ∧ ∃ e, st.final = some e) :=
  ⟨rfl, ⟨.other "io failure", rfl⟩,
   ⟨⟨[[1, 2, 3]], some (.other "io failure")⟩, rfl,
    ⟨.other "io failure", rfl⟩⟩⟩

/-- Claim C9 (amended): every failure of `hash_sha256` is exactly the
underlying I/O error of the failed open or of the mid-stream read, so
failures with distinct I/O error values remain distinguishable; but an open
failure and a read failure with the same underlying I/O error yield the same
error value and cannot be told apart from the error alone. -/
theorem hash_sha256_error_is_underlying (fs : FS) (path : String)
    (e : IOError) (h : hash_sha256 fs path = .error e) :
    fs.openFile path = .error e ∨
    ∃ st, fs.openFile path = .ok st ∧ st.final = some e := by
  cases hopen : fs.openFile path with
  | error e0 =>
    rw [hash_sha256_open_error fs path e0 hopen] at h
    injection h with h0
    left
    rw [h0]
  | ok st =>
    right
    refine ⟨st, rfl, ?_⟩
    rw [hash_sha256_ok_stream fs path st hopen] at h
    cases hfin : st.final with
    | none =>
      obtain ⟨m, hm⟩ := ioCopy_none st.chunks Sha256Ctx.new 0
      rw [hfin, hm] at h
      have h2 : (Except.ok (base16LowerEncode
          (List.foldl Sha256Ctx.update Sha256Ctx.new st.chunks).finalize) :
          Except IOError String) = Except.error e := h
      exact Except.noConfusion h2
    | some e0 =>
      rw [hfin, ioCopy_some] at h
      have h2 : (Except.error e0 : Except IOError String) = Except.error e := h
      injection h2 with h3
      rw [h3]

/-- Witness for C9 (amended): the error of a failed open is the open's own
I/O error. -/
theorem hash_sha256_error_is_underlying_witness :
    fsNotFound.openFile "b.txt" = .error .notFound ∨
    ∃ st, fsNotFound.openFile "b.txt" = .ok st ∧ st.final = some .notFound :=
  hash_sha256_error_is_underlying fsNotFound "b.txt" .notFound rfl

/-- Claim C10: `hash_sha256` is total — for every file system and every path
string, including the empty string, the call returns either `Ok` of a string
or `Err` of an error, never anything else. -/
theorem hash_sha256_total (fs : FS) (path : String) :
    (∃ s, hash_sha256 fs path = .ok s) ∨
    ∃ e, hash_sha256 fs path = .error e := by
  cases h : hash_sha256 fs path with
  | ok s => exact Or.inl ⟨s, rfl⟩
  | error e => exact Or.inr ⟨e, rfl⟩

end HashChecker
